import Mathlib

/-!
# Verification of the Solidity++ type checker specification

A shallow embedding of the type-checking pass declared in
`src/libsolidity/analysis/TypeChecker.h`.  The repository contains only the
header (declarations and doc comments); every method body is absent, so the
operational content below is modelled from the specification, as marked on
each definition.  The embedding keeps the header's names where Lean allows.

The checker state is a pair of append-only logs: the diagnostic sink
(ordered list of error/warning entries) and the type-annotation store
(node-identity keyed, write-once).  The traversal is a pure function over a
reduced AST covering the node shapes the claims exercise: resolved
identifiers, type references, tuples of potential type references, the
Solidity++ `await` expression, `abi.decode` calls, tuple assignments with
storage-rooted targets, functions, contracts with inheritance lists, and
source units.
-/

set_option maxHeartbeats 1000000
set_option linter.unusedVariables false

namespace SolidityPP

/-- Severity of a recorded diagnostic: the sink holds errors and warnings. -/
inductive Severity where
  | error
  | warning
deriving DecidableEq, Repr

/-- The diagnostic kinds the modelled checks can record. -/
inductive DiagKind where
  | inheritanceCycle
  | invalidABIDecodeUsage
  | notAwaitable
  | typeMismatch
  | doubleStorageAssignment
  | noMatchingOverload
  | ambiguousReference
deriving DecidableEq, Repr

/-- Modelled from the spec: the error taxonomy of section 7 classifies the
double-storage-assignment diagnostic as a warning and all other kinds
recorded here as errors. -/
def DiagKind.severity : DiagKind → Severity
  | .doubleStorageAssignment => .warning
  | _ => .error

/-- One entry of the diagnostic sink: a kind plus the node it points at. -/
structure Diag where
  kind : DiagKind
  node : Nat
deriving DecidableEq, Repr

/-- Semantic types, reduced to the categories the claims exercise:
elementary numeric/boolean/address, dynamically sized bytes, arrays
(`none` length means dynamically sized), structs, tuples, the Solidity++
message-handle type carrying its declared return type, and the
type-of-a-type wrapper used for type references. -/
inductive Ty where
  | uintTy : Nat → Ty
  | boolTy : Ty
  | addressTy : Ty
  | bytesTy : Ty
  | arrayTy : Ty → Option Nat → Ty
  | structTy : List Ty → Ty
  | tupleTy : List Ty → Ty
  | msgHandleTy : Ty → Ty
  | typeTypeTy : Ty → Ty

/-- A type is dynamically sized when its encoded length is not fixed at
compile time: dynamic byte sequences and dynamically sized arrays. -/
def Ty.isDynamicallySized : Ty → Bool
  | .bytesTy => true
  | .arrayTy _ none => true
  | _ => false

/-- Implicit convertibility, the directed compatibility relation of the
data model (section 3): numeric widening plus identity on the categories
the modelled checks consult. -/
def implicitlyConvertible : Ty → Ty → Bool
  | .uintTy n, .uintTy m => decide (n ≤ m)
  | .boolTy, .boolTy => true
  | .addressTy, .addressTy => true
  | .bytesTy, .bytesTy => true
  | .msgHandleTy a, .msgHandleTy b => implicitlyConvertible a b
  | .typeTypeTy a, .typeTypeTy b => implicitlyConvertible a b
  | .arrayTy a la, .arrayTy b lb => la == lb && implicitlyConvertible a b
  | _, _ => false

/-- Modelled from the spec: the body of
`TypeChecker::typeSupportedByOldABIEncoder` is absent from `src/`; section
4.6 describes the legacy-encoder eligibility rule as a pure structural
predicate rejecting nested dynamic structures: arrays of dynamically sized
elements and structs containing dynamically sized members. -/
def legacyEncodable : Ty → Bool
  | .arrayTy base _ => !base.isDynamicallySized && legacyEncodable base
  | .structTy fields => fields.all (fun f => !f.isDynamicallySized)
  | _ => true

/-- Modelled from the spec: `typeSupportedByOldABIEncoder(type,
isLibraryCall)` (declared static in the header, hence independent of any
checker state) accepts every type for a library call target, whose internal
calling convention tolerates more structural complexity, and otherwise
applies the legacy structural predicate. -/
def typeSupportedByOldABIEncoder (t : Ty) (isLibraryCall : Bool) : Bool :=
  if isLibraryCall then true else legacyEncodable t

/-- The class of nested dynamic structures named by the claim: an array of
dynamically sized elements, or a struct containing a dynamically sized
member. -/
def isNestedDynamic : Ty → Bool
  | .arrayTy base _ => base.isDynamicallySized
  | .structTy fields => fields.any Ty.isDynamicallySized
  | _ => false

/-! ## Inheritance-cycle detection

`TypeChecker::contractDependenciesAreCyclic` is declared in the header with
a contract argument and a default-empty seen set; its body is absent.  The
spec (section 4.4) describes it as a depth-first traversal of the
inheritance graph tracking the current path and reporting a cycle when a
contract already on the path is revisited.  The inheritance graph is an
association list from a contract identity to the identities of its direct
bases. -/

/-- Look a contract's direct bases up in the inheritance graph. -/
def lookupBases : List (Nat × List Nat) → Nat → Option (List Nat)
  | [], _ => none
  | (k, bs) :: rest, c => if c = k then some bs else lookupBases rest c

/-- The graph vertices not yet on the current path; its length is the
termination measure of the depth-first traversal. -/
def unseenKeys (g : List (Nat × List Nat)) (seen : List Nat) : List Nat :=
  (g.map Prod.fst).filter (fun k => !(seen.contains k))

/-- Modelled from the spec: the body of
`TypeChecker::contractDependenciesAreCyclic` is absent from `src/`; section
4.4 describes a depth-first traversal over the inheritance graph that
tracks the current path in `seen` and reports a cycle on revisiting a
contract already on the path.  The definition is total (well-founded on the
number of vertices not yet on the path), which is the formal counterpart of
the claim that the traversal terminates on every inheritance graph. -/
def contractDependenciesAreCyclic (g : List (Nat × List Nat)) (c : Nat)
    (seen : List Nat) : Bool :=
  if hc : seen.contains c then true
  else
    match hm : lookupBases g c with
    | none => false
    | some bases => bases.any (fun b => contractDependenciesAreCyclic g b (c :: seen))
termination_by (unseenKeys g seen).length
decreasing_by
  have hns : seen.contains c = false := Bool.not_eq_true _ ▸ hc
  have hmem : c ∈ g.map Prod.fst := by
    clear hc hns
    induction g with
    | nil => simp [lookupBases] at hm
    | cons p rest ih =>
      obtain ⟨k, v⟩ := p
      by_cases hck : c = k
      · simp [hck]
      · simp only [lookupBases, if_neg hck] at hm
        exact List.mem_cons_of_mem _ (ih hm)
  have mono : ∀ (p q : Nat → Bool) (l : List Nat), (∀ k, p k = true → q k = true) →
      (l.filter p).length ≤ (l.filter q).length := by
    intro p q l h
    induction l with
    | nil => simp
    | cons a l ih =>
      rw [List.filter_cons, List.filter_cons]
      by_cases hpa : p a = true
      · rw [if_pos hpa, if_pos (h a hpa)]
        simp only [List.length_cons]
        exact Nat.succ_le_succ ih
      · rw [if_neg hpa]
        by_cases hqa : q a = true
        · rw [if_pos hqa]
          exact Nat.le_succ_of_le ih
        · rw [if_neg hqa]
          exact ih
  unfold unseenKeys
  generalize g.map Prod.fst = ks at hmem
  clear hc hm
  induction ks with
  | nil => simp at hmem
  | cons a ks ih =>
    rw [List.filter_cons, List.filter_cons]
    by_cases hac : a = c
    · subst hac
      have h1 : (!((a :: seen).contains a)) = false := by
        simp [List.contains_cons]
      have h2 : (!(seen.contains a)) = true := by rw [hns]; rfl
      rw [if_neg (by rw [h1]; exact Bool.false_ne_true), if_pos h2]
      simp only [List.length_cons]
      refine Nat.lt_succ_of_le (mono _ _ ks ?_)
      intro x hx
      simp only [Bool.not_eq_true', List.contains_cons] at hx ⊢
      exact (Bool.or_eq_false_iff.mp hx).2
    · have hmem' : c ∈ ks := by
        rcases List.mem_cons.mp hmem with h | h
        · exact absurd h.symm hac
        · exact h
      have hco : ((c :: seen).contains a) = (seen.contains a) := by
        simp only [List.contains_cons]
        have hne : (a == c) = false := by
          simp only [beq_eq_false_iff_ne, ne_eq]
          exact hac
        rw [hne, Bool.false_or]
      rw [hco]
      by_cases hsa : (!(seen.contains a)) = true
      · rw [if_pos hsa, if_pos hsa]
        simp only [List.length_cons]
        exact Nat.succ_lt_succ (ih hmem')
      · rw [if_neg hsa, if_neg hsa]
        exact ih hmem'

/-! ## Reduced AST

Every node carries its identity (a natural number); annotations are keyed
by node identity.  Tuple components are restricted to the two shapes the
`abi.decode` check distinguishes: a type reference or an ordinary value
expression whose type was resolved upstream. -/

/-- A component of a tuple expression. -/
inductive TupleComp where
  | typeComp : Nat → Ty → TupleComp
  | exprComp : Nat → Ty → TupleComp

/-- Node identity of a tuple component. -/
def TupleComp.compId : TupleComp → Nat
  | .typeComp i _ => i
  | .exprComp i _ => i

/-- The semantic type of a tuple component: a type reference denotes its
referenced type (wrapped as a type-of-a-type), a value component its
resolved type. -/
def TupleComp.compTy : TupleComp → Ty
  | .typeComp _ t => .typeTypeTy t
  | .exprComp _ t => t

/-- Expressions: resolved identifiers and literals (their type attached by
the upstream name-resolution pass), type references, tuple expressions,
the Solidity++ `await` expression, and `abi.decode` calls with their data
argument and their types argument. -/
inductive Expr where
  | ident : Nat → Ty → Expr
  | typeRef : Nat → Ty → Expr
  | tupleE : Nat → List TupleComp → Expr
  | awaitE : Nat → Expr → Expr
  | abiDecode : Nat → Expr → Expr → Expr

/-- Node identity of an expression. -/
def Expr.eid : Expr → Nat
  | .ident i _ => i
  | .typeRef i _ => i
  | .tupleE i _ => i
  | .awaitE i _ => i
  | .abiDecode i _ _ => i

/-- All node identities of an expression, in annotation (post) order. -/
def Expr.ids : Expr → List Nat
  | .ident i _ => [i]
  | .typeRef i _ => [i]
  | .tupleE i comps => comps.map TupleComp.compId ++ [i]
  | .awaitE i op => op.ids ++ [i]
  | .abiDecode i dataArg typesArg => dataArg.ids ++ typesArg.ids ++ [i]

/-- A target on the left-hand side of a tuple assignment, as seen by the
storage assignment guard: either rooted in a storage declaration (with the
member/index access path from that root) or not storage-rooted. -/
inductive LhsTarget where
  | storageT : Nat → Nat → List Nat → LhsTarget
  | plainT : Nat → LhsTarget

/-- Whether the first access path is an initial segment of the second. -/
def pathLE : List Nat → List Nat → Bool
  | [], _ => true
  | _, [] => false
  | a :: as, b :: bs => a == b && pathLE as bs

/-- Two storage-rooted targets overlap when they share the root and one
access path is an initial segment of the other. -/
def overlapT : LhsTarget → LhsTarget → Bool
  | .storageT _ r1 p1, .storageT _ r2 p2 =>
      r1 == r2 && (pathLE p1 p2 || pathLE p2 p1)
  | _, _ => false

/-- Modelled from the spec: the body of
`TypeChecker::checkDoubleStorageAssignment` is absent from `src/`; section
4.5 describes the guard as detecting, among the storage-rooted targets of
one tuple assignment, a pair where one target is a prefix of the other. -/
def hasDoubleStorageAssignment : List LhsTarget → Bool
  | [] => false
  | t :: rest => rest.any (overlapT t) || hasDoubleStorageAssignment rest

/-- Statements: expression statements and tuple assignments (the left-hand
side already decomposed into its targets by the lvalue analysis). -/
inductive Stmt where
  | exprStmt : Expr → Stmt
  | assignStmt : Nat → List LhsTarget → Expr → Stmt

/-- All node identities a statement can annotate. -/
def Stmt.ids : Stmt → List Nat
  | .exprStmt e => e.ids
  | .assignStmt i _ rhs => rhs.ids ++ [i]

/-- A function definition: identity, parameter declarations (identity and
declared type) and a body. -/
structure FunctionDef where
  fid : Nat
  params : List (Nat × Ty)
  body : List Stmt

/-- All node identities a function contributes: its parameter declarations
are registered (annotated) before any body statement is checked. -/
def FunctionDef.ids (f : FunctionDef) : List Nat :=
  f.params.map Prod.fst ++ f.body.flatMap Stmt.ids

/-- A contract definition: identity, direct bases, member functions. -/
structure ContractDef where
  cid : Nat
  bases : List Nat
  functions : List FunctionDef

/-- All node identities a contract contributes. -/
def ContractDef.ids (c : ContractDef) : List Nat :=
  c.functions.flatMap FunctionDef.ids

/-- A source unit: the list of top-level contract definitions. -/
structure SourceUnit where
  contracts : List ContractDef

/-- All node identities of a source unit. -/
def SourceUnit.ids (s : SourceUnit) : List Nat :=
  s.contracts.flatMap ContractDef.ids

/-- The inheritance graph of a source unit. -/
def graphOf (s : SourceUnit) : List (Nat × List Nat) :=
  s.contracts.map (fun c => (c.cid, c.bases))

/-! ## Checker state -/

/-- The observable state of one checking run: the externally owned
diagnostic sink (append-only, ordered) and the type-annotation store
(append-only, keyed by node identity, write-once). -/
structure CheckState where
  diags : List Diag
  annots : List (Nat × Ty)

/-- The state a fresh run starts from. -/
def emptyState : CheckState := ⟨[], []⟩

/-- Append one diagnostic to the sink. -/
def recordDiag (st : CheckState) (k : DiagKind) (n : Nat) : CheckState :=
  { st with diags := st.diags ++ [⟨k, n⟩] }

/-- Write a node's type annotation (single assignment, append-only). -/
def annotate (st : CheckState) (i : Nat) (t : Ty) : CheckState :=
  { st with annots := st.annots ++ [(i, t)] }

/-- Read a node's annotation if it has been written. -/
def lookupAnnot (st : CheckState) (i : Nat) : Option Ty :=
  go st.annots
where
  go : List (Nat × Ty) → Option Ty
    | [] => none
    | (k, t) :: rest => if i = k then some t else go rest

/-- The internal-consistency failure class of section 7: aborts the run
instead of recording a user diagnostic. -/
inductive ContractViolation where
  | unannotatedNode
deriving DecidableEq, Repr

/-- Modelled from the spec: the bodies of `TypeChecker::type(Expression)`
and `TypeChecker::type(VariableDeclaration)` are absent from `src/`; the
header asserts that the annotation is present and throws otherwise, so the
accessor either returns the stored type or aborts with a contract
violation.  It never touches the diagnostic sink. -/
def typeOfNode (st : CheckState) (i : Nat) : Except ContractViolation Ty :=
  match lookupAnnot st i with
  | some t => .ok t
  | none => .error .unannotatedNode

/-! ## The checking traversal -/

/-- The referenced types of a component list when every component is a type
reference; `none` otherwise. -/
def typeListOfComps : List TupleComp → Option (List Ty)
  | [] => some []
  | .typeComp _ t :: rest => (typeListOfComps rest).map (fun ts => t :: ts)
  | .exprComp _ _ :: rest => none

/-- The compile-time-static tuple of type references demanded as
`abi.decode`'s second argument: a tuple expression all of whose components
are type references yields the referenced types in order. -/
def staticTypeList : Expr → Option (List Ty)
  | .tupleE _ comps => typeListOfComps comps
  | _ => none

/-- Modelled from the spec: the body of
`TypeChecker::typeCheckABIDecodeAndRetrieveReturnType` is absent from
`src/`.  Section 4.3: the first argument must be implicitly convertible to
`bytes memory` (a violated general argument check records an error and the
run continues, section 5); the second argument must be a
compile-time-static tuple of type references, otherwise an
invalid-decode-usage error is recorded and the empty vector returned; on a
static tuple the referenced types are returned.  `dataTy` is the checked
type of the first argument (`none` when checking it already failed). -/
def typeCheckABIDecodeAndRetrieveReturnType (st : CheckState)
    (callId dataArgId : Nat) (dataTy : Option Ty) (typesArg : Expr) :
    CheckState × List Ty :=
  let st1 :=
    match dataTy with
    | some dt =>
        if implicitlyConvertible dt Ty.bytesTy then st
        else recordDiag st .typeMismatch dataArgId
    | none => st
  match staticTypeList typesArg with
  | some ts => (st1, ts)
  | none => (recordDiag st1 .invalidABIDecodeUsage callId, [])

/-- Annotate every tuple component with its semantic type. -/
def annotateComps (st : CheckState) (comps : List TupleComp) : CheckState :=
  { st with annots := st.annots ++ comps.map (fun c => (c.compId, c.compTy)) }

/-- The declared return type of a message handle; `none` when the type is
not a message-handle type (the not-awaitable case). -/
def handleRet : Ty → Option Ty
  | .msgHandleTy r => some r
  | _ => none

/-- Modelled from the spec: the expression-checking visit methods declared
in the header have no bodies in `src/`.  Bottom-up inference (section 4.2):
resolved leaves are annotated with their resolved type; a type reference
with the type-of-a-type wrapper; a tuple with the tuple of its component
types; `await` requires a message-handle operand and is annotated with the
handle's declared return type, otherwise a not-awaitable error is recorded;
`abi.decode` checks both arguments, applies the decode rule above, and the
referenced types become the call's result type.  Returns the new state and
the expression's checked type (`none` after a locally unrecoverable
error). -/
def checkExpr : CheckState → Expr → CheckState × Option Ty
  | st, .ident i t => (annotate st i t, some t)
  | st, .typeRef i t => (annotate st i (.typeTypeTy t), some (.typeTypeTy t))
  | st, .tupleE i comps =>
      let st1 := annotateComps st comps
      (annotate st1 i (.tupleTy (comps.map TupleComp.compTy)),
       some (.tupleTy (comps.map TupleComp.compTy)))
  | st, .awaitE i op =>
      match checkExpr st op with
      | (st1, some t) =>
          match handleRet t with
          | some r => (annotate st1 i r, some r)
          | none => (recordDiag st1 .notAwaitable i, none)
      | (st1, none) => (st1, none)
  | st, .abiDecode i dataArg typesArg =>
      let p1 := checkExpr st dataArg
      let p2 := checkExpr p1.1 typesArg
      let pr := typeCheckABIDecodeAndRetrieveReturnType p2.1 i dataArg.eid p1.2 typesArg
      (annotate pr.1 i (.tupleTy pr.2), some (.tupleTy pr.2))

/-- Modelled from the spec: statement checking.  An expression statement
checks its expression; a tuple assignment checks its right-hand side and
then runs the storage assignment guard, recording the non-fatal
double-storage-assignment warning on overlap (section 4.5) — checking
continues either way. -/
def checkStmt (st : CheckState) (s : Stmt) : CheckState :=
  match s with
  | .exprStmt e => (checkExpr st e).1
  | .assignStmt i lhs rhs =>
      let st1 := (checkExpr st rhs).1
      if hasDoubleStorageAssignment lhs then
        recordDiag st1 .doubleStorageAssignment i
      else st1

/-- Modelled from the spec: a function's parameter declarations are
registered (annotated) before any body statement is checked (section 5),
then the body is checked in order. -/
def checkFunction (st : CheckState) (f : FunctionDef) : CheckState :=
  f.body.foldl checkStmt { st with annots := st.annots ++ f.params }

/-- Modelled from the spec: the body of `TypeChecker::visit
(ContractDefinition)` is absent from `src/`.  Section 4.4: the cycle check
runs first at each contract boundary; on a cycle exactly one
inheritance-cycle diagnostic is recorded and checking aborts for that
contract only (its members are not checked); otherwise the members are
checked in order. -/
def checkContract (g : List (Nat × List Nat)) (st : CheckState)
    (c : ContractDef) : CheckState :=
  if contractDependenciesAreCyclic g c.cid [] then
    recordDiag st .inheritanceCycle c.cid
  else
    c.functions.foldl checkFunction st

/-- Modelled from the spec: the single top-level depth-first traversal over
the source unit's contracts.  The target-environment version is stored by
the checker's constructor; the rules it gates are outside the reduced node
set, so it is threaded but not consulted. -/
def checkSourceUnit (evm : Nat) (st : CheckState) (src : SourceUnit) :
    CheckState :=
  src.contracts.foldl (checkContract (graphOf src)) st

/-- Modelled from the spec: `TypeChecker::checkTypeRequirements` returns
true iff all checks passed — false if any error, independent of warnings,
was recorded (header doc comment and section 6). -/
def checkTypeRequirements (evm : Nat) (src : SourceUnit) : Bool :=
  (checkSourceUnit evm emptyState src).diags.all
    (fun d => d.kind.severity == Severity.warning)

/-! ## Overload narrowing -/

/-- An overload candidate: declaration identity, visibility at the use
site, and parameter types. -/
structure Decl where
  declId : Nat
  visible : Bool
  paramTypes : List Ty

/-- The visibility and static arity/type applicability filter of section
4.1, applied at a use site with the given argument types. -/
def staticallyApplicable (args : List Ty) (d : Decl) : Bool :=
  d.visible && d.paramTypes.length == args.length &&
    (args.zip d.paramTypes).all (fun p => implicitlyConvertible p.1 p.2)

/-- Modelled from the spec: the body of
`TypeChecker::cleanOverloadedDeclarations` is absent from `src/`.  Section
4.1: the candidate set is filtered by visibility and static applicability
at the use site; zero survivors record a no-matching-overload error; more
than one survivor — which the use-site information cannot tell apart, hence
mutually indistinguishable — records an ambiguous-reference error;
otherwise the single surviving declaration results. -/
def cleanOverloadedDeclarations (st : CheckState) (refId : Nat)
    (args : List Ty) (cands : List Decl) : CheckState × List Decl :=
  match cands.filter (staticallyApplicable args) with
  | [] => (recordDiag st .noMatchingOverload refId, [])
  | [d] => (st, [d])
  | d1 :: d2 :: rest => (recordDiag st .ambiguousReference refId, d1 :: d2 :: rest)

/-! ## Concrete instances used to exercise the checks -/

/-- A well-formed one-contract source unit with distinct node identities. -/
def sampleUnit : SourceUnit :=
  ⟨[⟨0, [], [⟨100, [(1, .uintTy 8)], [.exprStmt (.ident 2 .boolTy)]⟩]⟩]⟩

/-- A contract participating in the two-contract inheritance cycle
`0 → 1 → 0`. -/
def cyclicContract : ContractDef := ⟨0, [1], [⟨50, [(51, .boolTy)], []⟩]⟩

/-- The inheritance graph of the cycle `0 → 1 → 0`. -/
def cyclicGraph : List (Nat × List Nat) := [(0, [1]), (1, [0])]

/-- A static tuple of type references, `(uint256)`. -/
def badDecodeTypes : Expr := .tupleE 2 [.typeComp 3 (.uintTy 256)]

/-- A visible single-parameter overload candidate. -/
def declA : Decl := ⟨7, true, [.uintTy 16]⟩

/-- Two storage-rooted assignment targets with the same root where the
first access path is a prefix of the second (`s` and `s.a`). -/
def dsaTargets : List LhsTarget := [.storageT 10 7 [], .storageT 11 7 [0]]

/-- A source unit whose single function contains a tuple assignment with
overlapping storage targets and no other diagnostic-producing construct. -/
def dsaUnit : SourceUnit :=
  ⟨[⟨0, [], [⟨20, [], [.assignStmt 5 dsaTargets (.ident 1 .boolTy)]⟩]⟩]⟩

/-! ## Unfolding lemmas for the cycle traversal -/

/-- A contract already on the path is reported cyclic. -/
theorem cyclic_of_seen (g : List (Nat × List Nat)) (c : Nat) (seen : List Nat)
    (h : seen.contains c = true) :
    contractDependenciesAreCyclic g c seen = true := by
  unfold contractDependenciesAreCyclic
  rw [dif_pos h]

/-- Unfolding step for a contract not yet on the path whose bases are known. -/
theorem cyclic_step (g : List (Nat × List Nat)) (c : Nat) (seen : List Nat)
    (bases : List Nat) (h : seen.contains c = false)
    (hm : lookupBases g c = some bases) :
    contractDependenciesAreCyclic g c seen =
      bases.any (fun b => contractDependenciesAreCyclic g b (c :: seen)) := by
  conv_lhs => unfold contractDependenciesAreCyclic
  rw [dif_neg (by rw [h]; exact Bool.false_ne_true)]
  split
  · rename_i heq
    rw [hm] at heq
    exact absurd heq (by simp)
  · rename_i bs heq
    rw [hm] at heq
    injection heq with he
    rw [he]

/-- A contract absent from the graph and not on the path is not cyclic. -/
theorem cyclic_none (g : List (Nat × List Nat)) (c : Nat) (seen : List Nat)
    (h : seen.contains c = false) (hm : lookupBases g c = none) :
    contractDependenciesAreCyclic g c seen = false := by
  unfold contractDependenciesAreCyclic
  rw [dif_neg (by rw [h]; exact Bool.false_ne_true)]
  split
  · rfl
  · rename_i bs heq
    rw [hm] at heq
    exact absurd heq (by simp)

/-! ## Frame lemmas

Every checking step only appends to the diagnostic sink and to the
annotation store, and what it appends — and the checked type it returns —
does not depend on the state it starts from.  The appended annotation keys
are a sublist of the subtree's node identities taken in annotation order,
which yields the write-once invariant from distinctness of the AST's node
identities. -/

theorem typeCheckABIDecode_delta (callId dataArgId : Nat) (dataTy : Option Ty)
    (typesArg : Expr) :
    ∃ E R, ∀ st, typeCheckABIDecodeAndRetrieveReturnType st callId dataArgId
        dataTy typesArg = ({ diags := st.diags ++ E, annots := st.annots }, R) := by
  cases dataTy with
  | none =>
    cases hs : staticTypeList typesArg with
    | none =>
      exact ⟨[⟨.invalidABIDecodeUsage, callId⟩], [], fun st => by
        simp [typeCheckABIDecodeAndRetrieveReturnType, hs, recordDiag]⟩
    | some ts =>
      exact ⟨[], ts, fun st => by
        simp [typeCheckABIDecodeAndRetrieveReturnType, hs]⟩
  | some dt =>
    by_cases hconv : implicitlyConvertible dt Ty.bytesTy = true
    · cases hs : staticTypeList typesArg with
      | none =>
        exact ⟨[⟨.invalidABIDecodeUsage, callId⟩], [], fun st => by
          simp [typeCheckABIDecodeAndRetrieveReturnType, hs, hconv, recordDiag]⟩
      | some ts =>
        exact ⟨[], ts, fun st => by
          simp [typeCheckABIDecodeAndRetrieveReturnType, hs, hconv]⟩
    · cases hs : staticTypeList typesArg with
      | none =>
        exact ⟨[⟨.typeMismatch, dataArgId⟩, ⟨.invalidABIDecodeUsage, callId⟩], [],
          fun st => by
            simp [typeCheckABIDecodeAndRetrieveReturnType, hs, hconv, recordDiag]⟩
      | some ts =>
        exact ⟨[⟨.typeMismatch, dataArgId⟩], ts, fun st => by
          simp [typeCheckABIDecodeAndRetrieveReturnType, hs, hconv, recordDiag]⟩

theorem checkExpr_delta (e : Expr) :
    ∃ D A r, (∀ st, checkExpr st e =
        ({ diags := st.diags ++ D, annots := st.annots ++ A }, r)) ∧
      List.Sublist (A.map Prod.fst) e.ids := by
  induction e with
  | ident i t =>
    refine ⟨[], [(i, t)], some t, fun st => ?_, ?_⟩
    · simp [checkExpr, annotate]
    · simp [Expr.ids]
  | typeRef i t =>
    refine ⟨[], [(i, .typeTypeTy t)], some (.typeTypeTy t), fun st => ?_, ?_⟩
    · simp [checkExpr, annotate]
    · simp [Expr.ids]
  | tupleE i comps =>
    refine ⟨[], comps.map (fun c => (c.compId, c.compTy)) ++
        [(i, .tupleTy (comps.map TupleComp.compTy))],
      some (.tupleTy (comps.map TupleComp.compTy)), fun st => ?_, ?_⟩
    · simp [checkExpr, annotateComps, annotate, List.append_assoc]
    · simp only [Expr.ids, List.map_append, List.map_map]
      exact List.Sublist.refl _
  | awaitE i op ih =>
    obtain ⟨D, A, r, h, hsub⟩ := ih
    rcases r with _ | t
    · refine ⟨D, A, none, fun st => ?_, ?_⟩
      · simp only [checkExpr]
        rw [h st]
      · exact hsub.trans (List.sublist_append_left _ _)
    · cases hr : handleRet t with
      | some ret =>
        refine ⟨D, A ++ [(i, ret)], some ret, fun st => ?_, ?_⟩
        · simp only [checkExpr]
          rw [h st]
          simp [hr, annotate, List.append_assoc]
        · simp only [Expr.ids, List.map_append]
          exact hsub.append (List.Sublist.refl _)
      | none =>
        refine ⟨D ++ [⟨.notAwaitable, i⟩], A, none, fun st => ?_, ?_⟩
        · simp only [checkExpr]
          rw [h st]
          simp [hr, recordDiag, List.append_assoc]
        · exact hsub.trans (List.sublist_append_left _ _)
  | abiDecode i dataArg typesArg ih1 ih2 =>
    obtain ⟨D1, A1, r1, h1, hs1⟩ := ih1
    obtain ⟨D2, A2, r2, h2, hs2⟩ := ih2
    obtain ⟨E, R, hE⟩ := typeCheckABIDecode_delta i dataArg.eid r1 typesArg
    refine ⟨D1 ++ D2 ++ E, A1 ++ A2 ++ [(i, .tupleTy R)], some (.tupleTy R),
      fun st => ?_, ?_⟩
    · simp [checkExpr, h1, h2, hE, annotate, List.append_assoc]
    · simp only [Expr.ids, List.map_append]
      exact (hs1.append hs2).append (List.Sublist.refl _)

theorem checkStmt_delta (s : Stmt) :
    ∃ D A, (∀ st, checkStmt st s =
        { diags := st.diags ++ D, annots := st.annots ++ A }) ∧
      List.Sublist (A.map Prod.fst) s.ids := by
  cases s with
  | exprStmt e =>
    obtain ⟨D, A, r, h, hs⟩ := checkExpr_delta e
    exact ⟨D, A, fun st => by simp [checkStmt, h st], by simpa [Stmt.ids] using hs⟩
  | assignStmt i lhs rhs =>
    obtain ⟨D, A, r, h, hs⟩ := checkExpr_delta rhs
    by_cases hd : hasDoubleStorageAssignment lhs = true
    · refine ⟨D ++ [⟨.doubleStorageAssignment, i⟩], A, fun st => ?_, ?_⟩
      · simp [checkStmt, h st, hd, recordDiag, List.append_assoc]
      · exact hs.trans (List.sublist_append_left _ _)
    · refine ⟨D, A, fun st => ?_, ?_⟩
      · simp [checkStmt, h st, hd]
      · exact hs.trans (List.sublist_append_left _ _)

theorem checkStmts_delta (l : List Stmt) :
    ∃ D A, (∀ st, l.foldl checkStmt st =
        { diags := st.diags ++ D, annots := st.annots ++ A }) ∧
      List.Sublist (A.map Prod.fst) (l.flatMap Stmt.ids) := by
  induction l with
  | nil => exact ⟨[], [], fun st => by simp, by simp⟩
  | cons s l ih =>
    obtain ⟨D1, A1, h1, hs1⟩ := checkStmt_delta s
    obtain ⟨D2, A2, h2, hs2⟩ := ih
    refine ⟨D1 ++ D2, A1 ++ A2, fun st => ?_, ?_⟩
    · rw [List.foldl_cons, h1 st, h2]
      simp [List.append_assoc]
    · simp only [List.flatMap_cons, List.map_append]
      exact hs1.append hs2

theorem checkFunction_delta (f : FunctionDef) :
    ∃ D A, (∀ st, checkFunction st f =
        { diags := st.diags ++ D, annots := st.annots ++ A }) ∧
      List.Sublist (A.map Prod.fst) f.ids := by
  obtain ⟨D, A, h, hs⟩ := checkStmts_delta f.body
  refine ⟨D, f.params ++ A, fun st => ?_, ?_⟩
  · unfold checkFunction
    rw [h]
    simp [List.append_assoc]
  · simp only [FunctionDef.ids, List.map_append]
    exact (List.Sublist.refl _).append hs

theorem checkFunctions_delta (l : List FunctionDef) :
    ∃ D A, (∀ st, l.foldl checkFunction st =
        { diags := st.diags ++ D, annots := st.annots ++ A }) ∧
      List.Sublist (A.map Prod.fst) (l.flatMap FunctionDef.ids) := by
  induction l with
  | nil => exact ⟨[], [], fun st => by simp, by simp⟩
  | cons f l ih =>
    obtain ⟨D1, A1, h1, hs1⟩ := checkFunction_delta f
    obtain ⟨D2, A2, h2, hs2⟩ := ih
    refine ⟨D1 ++ D2, A1 ++ A2, fun st => ?_, ?_⟩
    · rw [List.foldl_cons, h1 st, h2]
      simp [List.append_assoc]
    · simp only [List.flatMap_cons, List.map_append]
      exact hs1.append hs2

theorem checkContract_delta (g : List (Nat × List Nat)) (c : ContractDef) :
    ∃ D A, (∀ st, checkContract g st c =
        { diags := st.diags ++ D, annots := st.annots ++ A }) ∧
      List.Sublist (A.map Prod.fst) c.ids := by
  by_cases hcy : contractDependenciesAreCyclic g c.cid [] = true
  · exact ⟨[⟨.inheritanceCycle, c.cid⟩], [], fun st => by
      simp [checkContract, hcy, recordDiag], by simp⟩
  · obtain ⟨D, A, h, hs⟩ := checkFunctions_delta c.functions
    exact ⟨D, A, fun st => by simp only [checkContract, if_neg hcy]; exact h st,
      by simpa [ContractDef.ids] using hs⟩

theorem checkContracts_delta (g : List (Nat × List Nat)) (l : List ContractDef) :
    ∃ D A, (∀ st, l.foldl (checkContract g) st =
        { diags := st.diags ++ D, annots := st.annots ++ A }) ∧
      List.Sublist (A.map Prod.fst) (l.flatMap ContractDef.ids) := by
  induction l with
  | nil => exact ⟨[], [], fun st => by simp, by simp⟩
  | cons c l ih =>
    obtain ⟨D1, A1, h1, hs1⟩ := checkContract_delta g c
    obtain ⟨D2, A2, h2, hs2⟩ := ih
    refine ⟨D1 ++ D2, A1 ++ A2, fun st => ?_, ?_⟩
    · rw [List.foldl_cons, h1 st, h2]
      simp [List.append_assoc]
    · simp only [List.flatMap_cons, List.map_append]
      exact hs1.append hs2

theorem checkSourceUnit_delta (evm : Nat) (src : SourceUnit) :
    ∃ D A, (∀ st, checkSourceUnit evm st src =
        { diags := st.diags ++ D, annots := st.annots ++ A }) ∧
      List.Sublist (A.map Prod.fst) src.ids := by
  obtain ⟨D, A, h, hs⟩ := checkContracts_delta (graphOf src) src.contracts
  exact ⟨D, A, fun st => h st, by simpa [SourceUnit.ids] using hs⟩

/-! ## Diagnostics persist through the traversal -/

theorem foldl_diags_mono {α : Type} {step : CheckState → α → CheckState}
    (hstep : ∀ st a, ∃ D A, step st a =
      { diags := st.diags ++ D, annots := st.annots ++ A })
    {d : Diag} : ∀ (l : List α) (st : CheckState),
      d ∈ st.diags → d ∈ (l.foldl step st).diags := by
  intro l
  induction l with
  | nil => intro st h; simpa using h
  | cons a l ih =>
    intro st h
    rw [List.foldl_cons]
    apply ih
    obtain ⟨D, A, hDA⟩ := hstep st a
    rw [hDA]
    exact List.mem_append_left _ h

theorem foldl_diags_of_mem {α : Type} {step : CheckState → α → CheckState}
    (hstep : ∀ st a, ∃ D A, step st a =
      { diags := st.diags ++ D, annots := st.annots ++ A })
    {d : Diag} {x : α} (hx : ∀ st, d ∈ (step st x).diags) :
    ∀ (l : List α) (st : CheckState), x ∈ l → d ∈ (l.foldl step st).diags := by
  intro l
  induction l with
  | nil => intro st h; simp at h
  | cons a l ih =>
    intro st h
    rw [List.foldl_cons]
    rcases List.mem_cons.mp h with rfl | hmem
    · exact foldl_diags_mono hstep l _ (hx st)
    · exact ih _ hmem

/-! ## The verdict and the sink -/

theorem onlyWarnings_false_iff (ds : List Diag) :
    (ds.all (fun d => d.kind.severity == Severity.warning) = false) ↔
      ∃ d, d ∈ ds ∧ d.kind.severity = Severity.error := by
  constructor
  · intro h
    have hna : ¬(∀ d ∈ ds, (d.kind.severity == Severity.warning) = true) := by
      intro hall
      rw [List.all_eq_true.mpr hall] at h
      cases h
    push_neg at hna
    obtain ⟨d, hd, hw⟩ := hna
    refine ⟨d, hd, ?_⟩
    cases hsev : d.kind.severity with
    | error => rfl
    | warning => exact absurd (by simp [hsev]) hw
  · rintro ⟨d, hd, he⟩
    rw [← Bool.not_eq_true, List.all_eq_true]
    intro hall
    have := hall d hd
    rw [he] at this
    simp at this

/-! ## Decode-specific helper lemmas -/

theorem typeCheckABIDecode_static (st : CheckState) (callId dataArgId : Nat)
    (dataTy : Option Ty) (typesArg : Expr) (ts : List Ty)
    (h : staticTypeList typesArg = some ts) :
    (typeCheckABIDecodeAndRetrieveReturnType st callId dataArgId dataTy
      typesArg).2 = ts := by
  cases dataTy with
  | none => simp [typeCheckABIDecodeAndRetrieveReturnType, h]
  | some dt =>
    by_cases hc : implicitlyConvertible dt Ty.bytesTy = true <;>
      simp [typeCheckABIDecodeAndRetrieveReturnType, h, hc]

theorem typeCheckABIDecode_nonstatic (st : CheckState) (callId dataArgId : Nat)
    (dataTy : Option Ty) (typesArg : Expr)
    (h : staticTypeList typesArg = none) :
    (typeCheckABIDecodeAndRetrieveReturnType st callId dataArgId dataTy
      typesArg).2 = [] ∧
    (⟨DiagKind.invalidABIDecodeUsage, callId⟩ : Diag) ∈
      (typeCheckABIDecodeAndRetrieveReturnType st callId dataArgId dataTy
        typesArg).1.diags := by
  cases dataTy with
  | none => simp [typeCheckABIDecodeAndRetrieveReturnType, h, recordDiag]
  | some dt =>
    by_cases hc : implicitlyConvertible dt Ty.bytesTy = true <;>
      simp [typeCheckABIDecodeAndRetrieveReturnType, h, hc, recordDiag]

/-! ## The claims -/

/-- C1: `checkTypeRequirements` returns false if and only if at least one
non-warning (error) diagnostic was recorded during the run; warnings alone
never make the result false. -/
theorem checkTypeRequirements_false_iff_error (evm : Nat) (src : SourceUnit) :
    checkTypeRequirements evm src = false ↔
      ∃ d, d ∈ (checkSourceUnit evm emptyState src).diags ∧
        d.kind.severity = Severity.error := by
  unfold checkTypeRequirements
  exact onlyWarnings_false_iff _

/-- C2: during a single checking run every node is annotated at most once —
when the AST's node identities are distinct, the annotation store's keys
are distinct (each write appends exactly one entry, so entries are writes)
— and the type accessor on a node whose annotation has not been written
aborts with a contract violation, never touching the diagnostic sink. -/
theorem annotation_write_once (evm : Nat) (src : SourceUnit)
    (h : src.ids.Nodup) :
    (((checkSourceUnit evm emptyState src).annots.map Prod.fst).Nodup) ∧
    (∀ st i, lookupAnnot st i = none →
      typeOfNode st i = Except.error ContractViolation.unannotatedNode) := by
  obtain ⟨D, A, hrun, hs⟩ := checkSourceUnit_delta evm src
  constructor
  · rw [hrun emptyState]
    simpa [emptyState] using (h.sublist hs)
  · intro st i hnone
    simp [typeOfNode, hnone]

theorem annotation_write_once_witness :
    (SourceUnit.ids sampleUnit).Nodup ∧
    ((checkSourceUnit 0 emptyState sampleUnit).annots.map Prod.fst).Nodup :=
  ⟨by decide, (annotation_write_once 0 sampleUnit (by decide)).1⟩

/-- The two-contract cycle `0 → 1 → 0` is detected. -/
theorem cyclicGraph_cyclic :
    contractDependenciesAreCyclic cyclicGraph 0 [] = true := by
  rw [cyclic_step cyclicGraph 0 [] [1] rfl rfl]
  simp only [List.any_cons, List.any_nil, Bool.or_false]
  rw [cyclic_step cyclicGraph 1 [0] [0] rfl rfl]
  simp only [List.any_cons, List.any_nil, Bool.or_false]
  exact cyclic_of_seen cyclicGraph 0 [1, 0] rfl

/-- C3: for a contract whose inheritance graph contains a cycle, visiting
the contract records exactly one inheritance-cycle diagnostic and aborts
checking for that contract only: the state is extended by that single
diagnostic, the annotation store is untouched (no member is checked), and
the traversal of any following contract proceeds from that state.  The
cycle-detection traversal itself is total — `contractDependenciesAreCyclic`
is defined by well-founded recursion on the vertices not yet on the path,
so it terminates on every inheritance graph. -/
theorem inheritanceCycle_aborts (g : List (Nat × List Nat)) (st : CheckState)
    (c : ContractDef) (h : contractDependenciesAreCyclic g c.cid [] = true) :
    checkContract g st c =
      { st with diags := st.diags ++ [⟨DiagKind.inheritanceCycle, c.cid⟩] } := by
  simp [checkContract, h, recordDiag]

theorem inheritanceCycle_aborts_witness :
    contractDependenciesAreCyclic cyclicGraph cyclicContract.cid [] = true ∧
    checkContract cyclicGraph emptyState cyclicContract =
      { emptyState with diags := [⟨DiagKind.inheritanceCycle, 0⟩] } := by
  refine ⟨cyclicGraph_cyclic, ?_⟩
  have h := inheritanceCycle_aborts cyclicGraph emptyState cyclicContract
    cyclicGraph_cyclic
  simpa [emptyState, cyclicContract] using h

/-- C7: the checker is deterministic — what one traversal of a source unit
appends to the diagnostic sink and to the annotation store depends only on
the source unit (and configuration), not on the state the run starts from;
hence two runs of `checkTypeRequirements` (which always starts from the
fresh state) on the same AST with the same configuration record identical
diagnostic sequences and identical annotations. -/
theorem checker_deterministic (evm : Nat) (src : SourceUnit)
    (st st' : CheckState) :
    (checkSourceUnit evm st src).diags.drop st.diags.length =
      (checkSourceUnit evm st' src).diags.drop st'.diags.length ∧
    (checkSourceUnit evm st src).annots.drop st.annots.length =
      (checkSourceUnit evm st' src).annots.drop st'.annots.length := by
  obtain ⟨D, A, h, _⟩ := checkSourceUnit_delta evm src
  rw [h st, h st']
  simp [List.drop_left]

/-- C4: for an `abi.decode` call whose second argument is a
compile-time-static tuple of type references, the call expression's checked
type is exactly the tuple of the referenced types in order (and it is
annotated so); when the second argument is not such a static tuple, an
invalid-decode-usage diagnostic is recorded. -/
theorem abiDecode_typing (st : CheckState) (i : Nat)
    (dataArg typesArg : Expr) :
    (∀ ts, staticTypeList typesArg = some ts →
        (checkExpr st (.abiDecode i dataArg typesArg)).2 =
          some (.tupleTy ts) ∧
        (i, Ty.tupleTy ts) ∈
          (checkExpr st (.abiDecode i dataArg typesArg)).1.annots) ∧
    (staticTypeList typesArg = none →
        (⟨DiagKind.invalidABIDecodeUsage, i⟩ : Diag) ∈
          (checkExpr st (.abiDecode i dataArg typesArg)).1.diags) := by
  constructor
  · intro ts hts
    have hv := typeCheckABIDecode_static
      (checkExpr (checkExpr st dataArg).1 typesArg).1 i dataArg.eid
      (checkExpr st dataArg).2 typesArg ts hts
    constructor
    · simp only [checkExpr]
      rw [hv]
    · simp only [checkExpr, annotate]
      rw [hv]
      simp
  · intro hns
    have hv := typeCheckABIDecode_nonstatic
      (checkExpr (checkExpr st dataArg).1 typesArg).1 i dataArg.eid
      (checkExpr st dataArg).2 typesArg hns
    simp only [checkExpr, annotate]
    exact hv.2

theorem abiDecode_typing_witness :
    staticTypeList badDecodeTypes = some [.uintTy 256] ∧
    (checkExpr emptyState
        (.abiDecode 0 (.ident 1 .bytesTy) badDecodeTypes)).2 =
      some (.tupleTy [.uintTy 256]) :=
  ⟨rfl,
    ((abiDecode_typing emptyState 0 (.ident 1 .bytesTy) badDecodeTypes).1
      [.uintTy 256] rfl).1⟩

/-- C5: an `await` whose operand's checked type is not a message-handle
type records a not-awaitable diagnostic; an `await` whose operand's checked
type is a message handle is annotated with exactly the handle's declared
return type, which is also the expression's checked type. -/
theorem await_typing (st : CheckState) (i : Nat) (op : Expr) :
    (∀ st1 t, checkExpr st op = (st1, some t) → handleRet t = none →
        (⟨DiagKind.notAwaitable, i⟩ : Diag) ∈
          (checkExpr st (.awaitE i op)).1.diags) ∧
    (∀ st1 r, checkExpr st op = (st1, some (.msgHandleTy r)) →
        (checkExpr st (.awaitE i op)).2 = some r ∧
        (i, r) ∈ (checkExpr st (.awaitE i op)).1.annots) := by
  constructor
  · intro st1 t hop hnr
    simp only [checkExpr]
    rw [hop]
    simp [hnr, recordDiag]
  · intro st1 r hop
    simp only [checkExpr]
    rw [hop]
    simp [handleRet, annotate]

theorem await_typing_witness :
    checkExpr emptyState (.ident 1 (.msgHandleTy (.uintTy 256))) =
      (annotate emptyState 1 (.msgHandleTy (.uintTy 256)),
        some (.msgHandleTy (.uintTy 256))) ∧
    ((checkExpr emptyState
        (.awaitE 2 (.ident 1 (.msgHandleTy (.uintTy 256))))).2 =
      some (.uintTy 256) ∧
    (2, Ty.uintTy 256) ∈
      (checkExpr emptyState
        (.awaitE 2 (.ident 1 (.msgHandleTy (.uintTy 256))))).1.annots) :=
  ⟨rfl,
    (await_typing emptyState 2 (.ident 1 (.msgHandleTy (.uintTy 256)))).2
      (annotate emptyState 1 (.msgHandleTy (.uintTy 256))) (.uintTy 256) rfl⟩

/-- C8: `typeSupportedByOldABIEncoder` — a pure function of its type and
is-library-call arguments alone (it is declared `static` and defined
without reference to any checker state) — returns false for every nested
dynamic structure (array of dynamically sized elements, struct containing
a dynamically sized member) when the call target is not a library, and
accepts such types when it is. -/
theorem legacyEncoder_rejects_nested_dynamic (t : Ty)
    (h : isNestedDynamic t = true) :
    typeSupportedByOldABIEncoder t false = false ∧
      typeSupportedByOldABIEncoder t true = true := by
  refine ⟨?_, by simp [typeSupportedByOldABIEncoder]⟩
  simp only [typeSupportedByOldABIEncoder, Bool.false_eq_true, if_false]
  cases t with
  | uintTy n => simp [isNestedDynamic] at h
  | boolTy => simp [isNestedDynamic] at h
  | addressTy => simp [isNestedDynamic] at h
  | bytesTy => simp [isNestedDynamic] at h
  | arrayTy base len =>
    simp only [isNestedDynamic] at h
    simp [legacyEncodable, h]
  | structTy fields =>
    simp only [isNestedDynamic] at h
    obtain ⟨f, hf, hdyn⟩ := List.any_eq_true.mp h
    have hnot : ¬(fields.all (fun f => !f.isDynamicallySized) = true) := by
      intro hall
      have := List.all_eq_true.mp hall f hf
      rw [hdyn] at this
      simp at this
    simp only [legacyEncodable]
    exact Bool.eq_false_iff.mpr hnot
  | tupleTy ts => simp [isNestedDynamic] at h
  | msgHandleTy r => simp [isNestedDynamic] at h
  | typeTypeTy r => simp [isNestedDynamic] at h

theorem legacyEncoder_rejects_nested_dynamic_witness :
    isNestedDynamic (.arrayTy .bytesTy (some 3)) = true ∧
    (typeSupportedByOldABIEncoder (.arrayTy .bytesTy (some 3)) false = false ∧
      typeSupportedByOldABIEncoder (.arrayTy .bytesTy (some 3)) true = true) :=
  ⟨rfl, legacyEncoder_rejects_nested_dynamic (.arrayTy .bytesTy (some 3)) rfl⟩

/-- C6: a tuple assignment whose storage-rooted targets overlap (one a
prefix of another) makes the run record the double-storage-assignment
diagnostic, whose severity is warning, not error; checking continues (the
diagnostic merely accumulates in the append-only sink), and the overall run
still returns true whenever every recorded diagnostic is a warning. -/
theorem doubleStorage_warns (evm : Nat) (src : SourceUnit) (c : ContractDef)
    (f : FunctionDef) (i : Nat) (lhs : List LhsTarget) (rhs : Expr)
    (hc : c ∈ src.contracts)
    (hnc : contractDependenciesAreCyclic (graphOf src) c.cid [] = false)
    (hf : f ∈ c.functions)
    (hs : Stmt.assignStmt i lhs rhs ∈ f.body)
    (hd : hasDoubleStorageAssignment lhs = true) :
    (⟨DiagKind.doubleStorageAssignment, i⟩ : Diag) ∈
      (checkSourceUnit evm emptyState src).diags ∧
    DiagKind.severity .doubleStorageAssignment = Severity.warning ∧
    ((checkSourceUnit evm emptyState src).diags.all
        (fun d => d.kind.severity == Severity.warning) = true →
      checkTypeRequirements evm src = true) := by
  have hstepS : ∀ st (s : Stmt), ∃ D A, checkStmt st s =
      { diags := st.diags ++ D, annots := st.annots ++ A } := by
    intro st s
    obtain ⟨D, A, h, _⟩ := checkStmt_delta s
    exact ⟨D, A, h st⟩
  have hstepF : ∀ st (f' : FunctionDef), ∃ D A, checkFunction st f' =
      { diags := st.diags ++ D, annots := st.annots ++ A } := by
    intro st f'
    obtain ⟨D, A, h, _⟩ := checkFunction_delta f'
    exact ⟨D, A, h st⟩
  have hstepC : ∀ st (c' : ContractDef), ∃ D A,
      checkContract (graphOf src) st c' =
      { diags := st.diags ++ D, annots := st.annots ++ A } := by
    intro st c'
    obtain ⟨D, A, h, _⟩ := checkContract_delta (graphOf src) c'
    exact ⟨D, A, h st⟩
  have hx_stmt : ∀ st, (⟨DiagKind.doubleStorageAssignment, i⟩ : Diag) ∈
      (checkStmt st (.assignStmt i lhs rhs)).diags := by
    intro st
    simp [checkStmt, hd, recordDiag]
  have hx_fun : ∀ st, (⟨DiagKind.doubleStorageAssignment, i⟩ : Diag) ∈
      (checkFunction st f).diags := by
    intro st
    unfold checkFunction
    exact foldl_diags_of_mem hstepS hx_stmt f.body _ hs
  have hx_con : ∀ st, (⟨DiagKind.doubleStorageAssignment, i⟩ : Diag) ∈
      (checkContract (graphOf src) st c).diags := by
    intro st
    rw [checkContract, if_neg (by rw [hnc]; exact Bool.false_ne_true)]
    exact foldl_diags_of_mem hstepF hx_fun c.functions st hf
  refine ⟨?_, rfl, fun h => h⟩
  unfold checkSourceUnit
  exact foldl_diags_of_mem hstepC hx_con src.contracts emptyState hc

theorem doubleStorage_warns_witness :
    hasDoubleStorageAssignment dsaTargets = true ∧
    (⟨DiagKind.doubleStorageAssignment, 5⟩ : Diag) ∈
      (checkSourceUnit 0 emptyState dsaUnit).diags :=
  ⟨rfl,
    (doubleStorage_warns 0 dsaUnit
      ⟨0, [], [⟨20, [], [.assignStmt 5 dsaTargets (.ident 1 .boolTy)]⟩]⟩
      ⟨20, [], [.assignStmt 5 dsaTargets (.ident 1 .boolTy)]⟩
      5 dsaTargets (.ident 1 .boolTy)
      (by simp [dsaUnit])
      (by rw [cyclic_step (graphOf dsaUnit) 0 [] [] rfl rfl]; rfl)
      (by simp)
      (by simp)
      rfl).1⟩

/-- C9: overload narrowing filters the candidate set by visibility and
static applicability at the use site; zero survivors record a
no-matching-overload error, two or more survivors — which the use-site
filter cannot tell apart — record an ambiguous-reference error, and
otherwise exactly the one surviving declaration results, with no
diagnostic. -/
theorem cleanOverloaded_narrowing (st : CheckState) (refId : Nat)
    (args : List Ty) (cands : List Decl) :
    (cands.filter (staticallyApplicable args) = [] →
        cleanOverloadedDeclarations st refId args cands =
          (recordDiag st .noMatchingOverload refId, [])) ∧
    (∀ d, cands.filter (staticallyApplicable args) = [d] →
        cleanOverloadedDeclarations st refId args cands = (st, [d])) ∧
    (∀ d1 d2 rest, cands.filter (staticallyApplicable args) = d1 :: d2 :: rest →
        cleanOverloadedDeclarations st refId args cands =
          (recordDiag st .ambiguousReference refId, d1 :: d2 :: rest)) := by
  refine ⟨fun h => ?_, fun d h => ?_, fun d1 d2 rest h => ?_⟩ <;>
    simp [cleanOverloadedDeclarations, h]

theorem cleanOverloaded_narrowing_witness :
    [declA].filter (staticallyApplicable [.uintTy 8]) = [declA] ∧
    cleanOverloadedDeclarations emptyState 9 [.uintTy 8] [declA] =
      (emptyState, [declA]) :=
  ⟨rfl,
    (cleanOverloaded_narrowing emptyState 9 [.uintTy 8] [declA]).2.1 declA rfl⟩

/-- C10 (counterexample): the claim that an empty result and a recorded
error coincide for every `abi.decode` call fails: with a non-bytes first
argument and the static tuple `(uint256)`, a type-mismatch error is
recorded yet the returned vector is the non-empty `[uint256]`. -/
theorem abiDecode_empty_iff_error_cex :
    ¬ (((typeCheckABIDecodeAndRetrieveReturnType emptyState 0 1
          (some .boolTy) badDecodeTypes).2 = []) ↔
       (∃ d, d ∈ (typeCheckABIDecodeAndRetrieveReturnType emptyState 0 1
          (some .boolTy) badDecodeTypes).1.diags ∧
          d.kind.severity = Severity.error)) := by
  intro hiff
  have hdiags : (typeCheckABIDecodeAndRetrieveReturnType emptyState 0 1
      (some .boolTy) badDecodeTypes).1.diags = [⟨.typeMismatch, 1⟩] := rfl
  have herr : ∃ d, d ∈ (typeCheckABIDecodeAndRetrieveReturnType emptyState 0 1
      (some .boolTy) badDecodeTypes).1.diags ∧
      d.kind.severity = Severity.error := by
    refine ⟨⟨.typeMismatch, 1⟩, ?_, rfl⟩
    rw [hdiags]
    simp
  have hempty := hiff.mpr herr
  have hval : (typeCheckABIDecodeAndRetrieveReturnType emptyState 0 1
      (some .boolTy) badDecodeTypes).2 = [.uintTy 256] := rfl
  rw [hval] at hempty
  simp at hempty

/-- C10 (amended): `typeCheckABIDecodeAndRetrieveReturnType` returns
exactly the referenced types whenever the second argument is a
compile-time-static tuple of type references — even when the
first-argument bytes check recorded an error — and returns the empty
vector, recording an invalid-decode-usage error, exactly when the second
argument fails the static-tuple check. -/
theorem abiDecode_return_amended (st : CheckState) (callId dataArgId : Nat)
    (dataTy : Option Ty) (typesArg : Expr) :
    (∀ ts, staticTypeList typesArg = some ts →
        (typeCheckABIDecodeAndRetrieveReturnType st callId dataArgId dataTy
          typesArg).2 = ts) ∧
    (staticTypeList typesArg = none →
        (typeCheckABIDecodeAndRetrieveReturnType st callId dataArgId dataTy
          typesArg).2 = [] ∧
        (⟨DiagKind.invalidABIDecodeUsage, callId⟩ : Diag) ∈
          (typeCheckABIDecodeAndRetrieveReturnType st callId dataArgId dataTy
            typesArg).1.diags) :=
  ⟨fun ts h => typeCheckABIDecode_static st callId dataArgId dataTy typesArg ts h,
   fun h => typeCheckABIDecode_nonstatic st callId dataArgId dataTy typesArg h⟩

theorem abiDecode_return_amended_witness :
    staticTypeList badDecodeTypes = some [.uintTy 256] ∧
    (typeCheckABIDecodeAndRetrieveReturnType emptyState 0 1 (some .boolTy)
      badDecodeTypes).2 = [.uintTy 256] :=
  ⟨rfl,
    (abiDecode_return_amended emptyState 0 1 (some .boolTy) badDecodeTypes).1
      [.uintTy 256] rfl⟩

end SolidityPP
